import Mathlib

/-!
Shallow embedding of the FIFO write-through cache in `fifo_cache.hpp`
(class `FIFOCache`) together with its SQLite-backed persistent store
(`persistent_db.hpp`, class `SQLiteDB`).

Modelling choices, each traceable to the source:
* `std::string` is modelled by `String`; `std::string::size()` (byte length)
  by `String.utf8ByteSize`.
* `size_t` arithmetic on `current_size` is modelled exactly: addition and
  subtraction are performed modulo `2^64` (`wadd`, `wsub`).
* `std::unordered_map<std::string, std::string>` is modelled by an
  association list with unique keys (`AList`): `find` is `alookup`,
  `operator[]`-assignment is `aset`, `erase` is `aerase`.  The map has no
  ordering semantics, and all observations go through `alookup`.
* `std::queue<std::string>` is a `List String` whose head is the queue front;
  `push` appends at the tail.
* The SQLite database is an association list plus a flag `dbOk` recording
  whether `sqlite3_open` succeeded (`db != nullptr`); with `dbOk = false`,
  `put_to_db` returns `false` without writing and `get_from_db` returns
  `(false, "")`, exactly as the early-return paths of `SQLiteDB` do.
* Each C++ member function that mutates the object becomes a function from
  `CacheState` to `CacheState` (paired with its return value when it has one).
-/

namespace KVStore

/-- `2^64`, the modulus of `size_t` arithmetic. -/
def W : Nat := 18446744073709551616

/-- `size_t` addition (wraps modulo `2^64`). -/
def wadd (a b : Nat) : Nat := (a + b) % W

/-- `size_t` subtraction `a - b` (wraps modulo `2^64`); defined for `a < W`. -/
def wsub (a b : Nat) : Nat := (a + (W - b % W)) % W

/-- Byte length of a string, as `std::string::size()` reports it. -/
def strBytes (s : String) : Nat := s.utf8ByteSize

/-- `key.size() + value.size()` computed in `size_t`. -/
def entrySize (k v : String) : Nat := wadd (strBytes k) (strBytes v)

/-- `MAX_SIZE = 50` bytes, from `fifo_cache.hpp`. -/
def MAX_SIZE : Nat := 50

/-- Association-list model of `std::unordered_map<std::string, std::string>`. -/
abbrev AList := List (String × String)

/-- `map.find(k)`: the value stored under `k`, if any. -/
def alookup : AList → String → Option String
  | [], _ => none
  | (k₀, v₀) :: rest, k => if k₀ = k then some v₀ else alookup rest k

/-- `map[k] = v`: overwrite the entry for `k`, or add one if absent. -/
def aset : AList → String → String → AList
  | [], k, v => [(k, v)]
  | (k₀, v₀) :: rest, k, v =>
      if k₀ = k then (k, v) :: rest else (k₀, v₀) :: aset rest k v

/-- `map.erase(k)`: drop the entry for `k` (the first, unique under `Nodup`). -/
def aerase : AList → String → AList
  | [], _ => []
  | (k₀, v₀) :: rest, k => if k₀ = k then rest else (k₀, v₀) :: aerase rest k

/-- The keys of an association list. -/
def keys (m : AList) : List String := m.map Prod.fst

/-- The joint state of a `FIFOCache` object and its `SQLiteDB` member. -/
structure CacheState where
  current_size : Nat
  cache : AList
  queue : List String
  db : AList
  dbOk : Bool
deriving DecidableEq

/-- A freshly constructed `FIFOCache`; `ok` records whether the SQLite
database opened successfully. -/
def initState (ok : Bool) : CacheState :=
  { current_size := 0, cache := [], queue := [], db := [], dbOk := ok }

/-- `SQLiteDB::put_to_db`: `INSERT OR REPLACE`; returns `false` without
writing when the database handle is null. -/
def put_to_db (s : CacheState) (key value : String) : Bool × CacheState :=
  if s.dbOk then (true, { s with db := aset s.db key value }) else (false, s)

/-- `SQLiteDB::get_from_db`: `(found, value)`, `(false, "")` on miss or on a
null database handle. -/
def get_from_db (s : CacheState) (key : String) : Bool × String :=
  if s.dbOk then
    match alookup s.db key with
    | some v => (true, v)
    | none => (false, "")
  else (false, "")

/-- `SQLiteDB::remove_from_db`: `DELETE`, reporting whether a row changed. -/
def remove_from_db (s : CacheState) (key : String) : Bool × CacheState :=
  if s.dbOk then
    match alookup s.db key with
    | some _ => (true, { s with db := aerase s.db key })
    | none => (false, s)
  else (false, s)

/-- The eviction loop of `FIFOCache::insertToCache`:
`while (current_size + value_size > MAX_SIZE && !queue.empty())` pop the
front key, and if it is still in the cache, subtract its size and erase it.
Returns the remaining queue, the cache, and `current_size`. -/
def evictLoop (vsize : Nat) : List String → AList → Nat → List String × AList × Nat
  | [], c, cur => ([], c, cur)
  | oldest :: rest, c, cur =>
    if wadd cur vsize ≤ MAX_SIZE then (oldest :: rest, c, cur)
    else
      match alookup c oldest with
      | some v => evictLoop vsize rest (aerase c oldest) (wsub cur (entrySize oldest v))
      | none => evictLoop vsize rest c cur

/-- `FIFOCache::insertToCache`. -/
def insertToCache (s : CacheState) (key value : String) : CacheState :=
  let value_size := entrySize key value
  if MAX_SIZE < value_size then s
  else
    let cur₁ :=
      match alookup s.cache key with
      | some v₀ => wsub s.current_size (entrySize key v₀)
      | none => s.current_size
    let r := evictLoop value_size s.queue s.cache cur₁
    let q₃ := if (alookup r.2.1 key).isSome then r.1 else r.1 ++ [key]
    { s with cache := aset r.2.1 key value, queue := q₃,
             current_size := wadd r.2.2 value_size }

/-- `FIFOCache::get`: probe the cache, then the database (promoting a hit
into the cache); `("", "")` signals not-found.  Returns the pair handed to
the caller together with the state after the call. -/
def get (s : CacheState) (key : String) : (String × String) × CacheState :=
  match alookup s.cache key with
  | some v => ((key, v), s)
  | none =>
    match get_from_db s key with
    | (true, v) => ((key, v), insertToCache s key v)
    | (false, _) => (("", ""), s)

/-- `FIFOCache::put`: reject the empty key, write to the database (the
boolean result is discarded, as in the C++), then `insertToCache`. -/
def put (s : CacheState) (key value : String) : CacheState :=
  if key = "" then s
  else
    let s₁ := (put_to_db s key value).2
    insertToCache s₁ key value

/-- `FIFOCache::remove`: delete from the database and from the cache
(adjusting `current_size`), and rebuild the queue without the key; returns
`removed_from_db || removed_from_cache`. -/
def remove (s : CacheState) (key : String) : Bool × CacheState :=
  let r := remove_from_db s key
  match alookup r.2.cache key with
  | some v =>
      (r.1 || true,
       { r.2 with cache := aerase r.2.cache key,
                  current_size := wsub r.2.current_size (entrySize key v),
                  queue := r.2.queue.filter (fun e => e ≠ key) })
  | none =>
      (r.1 || false,
       { r.2 with queue := r.2.queue.filter (fun e => e ≠ key) })

/-- The public operations of the cache façade. -/
inductive Op where
  | put (key value : String)
  | get (key : String)
  | remove (key : String)
deriving DecidableEq

/-- One public operation, viewed as a state transformer. -/
def step (s : CacheState) : Op → CacheState
  | .put k v => put s k v
  | .get k => (get s k).2
  | .remove k => (remove s k).2

/-- The state reached from a freshly constructed cache (with a working
database) by a sequence of public operations. -/
def run (ops : List Op) : CacheState := ops.foldl step (initState true)

/-- The true number of bytes resident in the cache index:
`Σ len(key) + len(value)` over its entries. -/
def cacheByteSum : AList → Nat
  | [] => 0
  | (k, v) :: rest => (strBytes k + strBytes v) + cacheByteSum rest

/-! ### Association-list lemmas -/

theorem keys_cons (k₀ v₀ : String) (tl : AList) :
    keys ((k₀, v₀) :: tl) = k₀ :: keys tl := rfl

theorem alookup_aset (m : AList) (k v k₂ : String) :
    alookup (aset m k v) k₂ = if k = k₂ then some v else alookup m k₂ := by
  induction m with
  | nil =>
    by_cases h : k = k₂ <;> simp [aset, alookup, h]
  | cons hd tl ih =>
    obtain ⟨k₀, v₀⟩ := hd
    by_cases h : k₀ = k
    · subst h
      by_cases h₂ : k₀ = k₂ <;> simp [aset, alookup, h₂]
    · by_cases h₂ : k₀ = k₂
      · have h₃ : ¬k = k₂ := fun hc => h (h₂.trans hc.symm)
        have h₄ : ¬k₂ = k := fun hc => h (h₂.trans hc)
        simp [aset, alookup, h, h₂, h₃, h₄]
      · simp [aset, alookup, h, h₂, ih]

theorem mem_keys_iff (m : AList) (k : String) :
    k ∈ keys m ↔ (alookup m k).isSome := by
  induction m with
  | nil => simp [keys, alookup]
  | cons hd tl ih =>
    obtain ⟨k₀, v₀⟩ := hd
    rw [keys_cons, List.mem_cons, ih]
    by_cases h : k₀ = k
    · simp [alookup, h]
    · have h₂ : ¬k = k₀ := fun hc => h hc.symm
      simp [alookup, h, h₂]

theorem aerase_sublist (m : AList) (k : String) : (aerase m k).Sublist m := by
  induction m with
  | nil => simp [aerase]
  | cons hd tl ih =>
    obtain ⟨k₀, v₀⟩ := hd
    by_cases h : k₀ = k
    · simp only [aerase, if_pos h]
      exact List.sublist_cons_self _ _
    · simp only [aerase, if_neg h]
      exact ih.cons₂ _

theorem keys_aerase_sublist (m : AList) (k : String) :
    (keys (aerase m k)).Sublist (keys m) :=
  (aerase_sublist m k).map Prod.fst

theorem alookup_aerase_ne (m : AList) (k k₂ : String) (h : k ≠ k₂) :
    alookup (aerase m k) k₂ = alookup m k₂ := by
  induction m with
  | nil => simp [aerase]
  | cons hd tl ih =>
    obtain ⟨k₀, v₀⟩ := hd
    by_cases h₀ : k₀ = k
    · have h₂ : ¬k₀ = k₂ := fun hc => h (h₀ ▸ hc)
      simp [aerase, alookup, h₀, h₂, h]
    · by_cases h₂ : k₀ = k₂
      · have h₃ : ¬k₂ = k := fun hc => h₀ (h₂.trans hc)
        simp [aerase, alookup, h₀, h₂, h₃]
      · simp [aerase, alookup, h₀, h₂, ih]

theorem alookup_eq_none_of_not_mem (m : AList) (k : String)
    (h : k ∉ keys m) : alookup m k = none := by
  induction m with
  | nil => simp [alookup]
  | cons hd tl ih =>
    obtain ⟨k₀, v₀⟩ := hd
    rw [keys_cons, List.mem_cons, not_or] at h
    have h₁ : ¬k₀ = k := fun hc => h.1 hc.symm
    simp [alookup, h₁, ih h.2]

theorem alookup_aerase_self (m : AList) (k : String)
    (h : (keys m).Nodup) : alookup (aerase m k) k = none := by
  induction m with
  | nil => simp [aerase, alookup]
  | cons hd tl ih =>
    obtain ⟨k₀, v₀⟩ := hd
    rw [keys_cons, List.nodup_cons] at h
    by_cases h₀ : k₀ = k
    · subst h₀
      simp only [aerase, if_pos rfl]
      exact alookup_eq_none_of_not_mem tl k₀ h.1
    · simp only [aerase, if_neg h₀, alookup, if_neg h₀]
      exact ih h.2

theorem alookup_aerase_isSome (m : AList) (k k₂ : String)
    (h : (alookup (aerase m k) k₂).isSome) : (alookup m k₂).isSome := by
  rw [← mem_keys_iff] at h ⊢
  exact (keys_aerase_sublist m k).mem h

theorem keys_aset_nodup (m : AList) (k v : String)
    (h : (keys m).Nodup) : (keys (aset m k v)).Nodup := by
  induction m with
  | nil => simp [aset, keys]
  | cons hd tl ih =>
    obtain ⟨k₀, v₀⟩ := hd
    rw [keys_cons, List.nodup_cons] at h
    by_cases h₀ : k₀ = k
    · subst h₀
      have hset : aset ((k₀, v₀) :: tl) k₀ v = (k₀, v) :: tl := by
        simp [aset]
      rw [hset, keys_cons, List.nodup_cons]
      exact h
    · have hset : aset ((k₀, v₀) :: tl) k v = (k₀, v₀) :: aset tl k v := by
        simp [aset, h₀]
      rw [hset, keys_cons, List.nodup_cons]
      refine ⟨?_, ih h.2⟩
      rw [mem_keys_iff, alookup_aset, if_neg (fun hc : k = k₀ => h₀ hc.symm),
        ← mem_keys_iff]
      exact h.1

theorem aerase_keys_nodup (m : AList) (k : String)
    (h : (keys m).Nodup) : (keys (aerase m k)).Nodup :=
  h.sublist (keys_aerase_sublist m k)

/-! ### The structural invariant and its preservation -/

/-- The joint invariant of the eviction engine and the store: the FIFO queue
has no duplicates, the index and store have well-formed key sets, the queue
holds exactly the resident keys, and no resident or stored key is empty. -/
def Inv (s : CacheState) : Prop :=
  s.queue.Nodup ∧ (keys s.cache).Nodup ∧ (keys s.db).Nodup ∧
  (∀ k, k ∈ s.queue ↔ (alookup s.cache k).isSome) ∧
  (∀ k, (alookup s.cache k).isSome → k ≠ "") ∧
  (∀ k, (alookup s.db k).isSome → k ≠ "")

theorem evictLoop_inv (vsize : Nat) :
    ∀ (q : List String) (c : AList) (cur : Nat),
      q.Nodup → (keys c).Nodup → (∀ k, k ∈ q ↔ (alookup c k).isSome) →
      (evictLoop vsize q c cur).1.Nodup ∧
        (keys (evictLoop vsize q c cur).2.1).Nodup ∧
        (∀ k, k ∈ (evictLoop vsize q c cur).1 ↔
          (alookup (evictLoop vsize q c cur).2.1 k).isSome) ∧
        (∀ k, (alookup (evictLoop vsize q c cur).2.1 k).isSome →
          (alookup c k).isSome) := by
  intro q
  induction q with
  | nil =>
    intro c cur _ hc hqc
    exact ⟨List.nodup_nil, hc, hqc, fun k h => h⟩
  | cons oldest rest ih =>
    intro c cur hq hc hqc
    rw [List.nodup_cons] at hq
    by_cases hcond : wadd cur vsize ≤ MAX_SIZE
    · simp only [evictLoop, if_pos hcond]
      exact ⟨List.nodup_cons.mpr hq, hc, hqc, fun k h => h⟩
    · simp only [evictLoop, if_neg hcond]
      cases hlk : alookup c oldest with
      | none =>
        have habs := (hqc oldest).mp (List.mem_cons_self _ _)
        rw [hlk] at habs
        simp at habs
      | some v =>
        have hrest : ∀ k, k ∈ rest ↔ (alookup (aerase c oldest) k).isSome := by
          intro k
          constructor
          · intro hkmem
            have hne : oldest ≠ k := fun hco => hq.1 (hco ▸ hkmem)
            rw [alookup_aerase_ne c oldest k hne]
            exact (hqc k).mp (List.mem_cons_of_mem _ hkmem)
          · intro hksome
            by_cases hek : oldest = k
            · subst hek
              rw [alookup_aerase_self c oldest hc] at hksome
              simp at hksome
            · rw [alookup_aerase_ne c oldest k hek] at hksome
              rcases List.mem_cons.mp ((hqc k).mpr hksome) with h₁ | h₁
              · exact absurd h₁.symm hek
              · exact h₁
        obtain ⟨a₁, a₂, a₃, a₄⟩ := ih (aerase c oldest)
          (wsub cur (entrySize oldest v)) hq.2 (aerase_keys_nodup c oldest hc) hrest
        exact ⟨a₁, a₂, a₃, fun k hk => alookup_aerase_isSome c oldest k (a₄ k hk)⟩

theorem insert_core_inv (s : CacheState) (k v : String) (hk : k ≠ "")
    (cur₁ : Nat)
    (hq : s.queue.Nodup) (hc : (keys s.cache).Nodup)
    (hqc : ∀ k₂, k₂ ∈ s.queue ↔ (alookup s.cache k₂).isSome)
    (hcne : ∀ k₂, (alookup s.cache k₂).isSome → k₂ ≠ "") :
    (if (alookup (evictLoop (entrySize k v) s.queue s.cache cur₁).2.1 k).isSome
      then (evictLoop (entrySize k v) s.queue s.cache cur₁).1
      else (evictLoop (entrySize k v) s.queue s.cache cur₁).1 ++ [k]).Nodup ∧
    (keys (aset (evictLoop (entrySize k v) s.queue s.cache cur₁).2.1 k v)).Nodup ∧
    (∀ k₂, (k₂ ∈
        if (alookup (evictLoop (entrySize k v) s.queue s.cache cur₁).2.1 k).isSome
        then (evictLoop (entrySize k v) s.queue s.cache cur₁).1
        else (evictLoop (entrySize k v) s.queue s.cache cur₁).1 ++ [k]) ↔
      (alookup (aset (evictLoop (entrySize k v) s.queue s.cache cur₁).2.1 k v)
        k₂).isSome) ∧
    (∀ k₂, (alookup (aset (evictLoop (entrySize k v) s.queue s.cache cur₁).2.1 k v)
        k₂).isSome → k₂ ≠ "") := by
  obtain ⟨e₁, e₂, e₃, e₄⟩ := evictLoop_inv (entrySize k v) s.queue s.cache cur₁ hq hc hqc
  refine ⟨?_, keys_aset_nodup _ k v e₂, ?_, ?_⟩
  · by_cases hin :
      (alookup (evictLoop (entrySize k v) s.queue s.cache cur₁).2.1 k).isSome
    · rw [if_pos hin]
      exact e₁
    · rw [if_neg hin]
      have hkq : k ∉ (evictLoop (entrySize k v) s.queue s.cache cur₁).1 :=
        fun hmem => hin ((e₃ k).mp hmem)
      refine List.Nodup.append e₁ (List.nodup_singleton k) ?_
      intro a ha hb
      rw [List.mem_singleton] at hb
      exact hkq (hb ▸ ha)
  · intro k₂
    rw [alookup_aset]
    by_cases hk₂ : k = k₂
    · subst hk₂
      rw [if_pos rfl]
      by_cases hin :
        (alookup (evictLoop (entrySize k v) s.queue s.cache cur₁).2.1 k).isSome
      · rw [if_pos hin]
        simp [(e₃ k).mpr hin]
      · rw [if_neg hin]
        simp [List.mem_append]
    · rw [if_neg hk₂]
      by_cases hin :
        (alookup (evictLoop (entrySize k v) s.queue s.cache cur₁).2.1 k).isSome
      · rw [if_pos hin]
        exact e₃ k₂
      · rw [if_neg hin]
        rw [List.mem_append, List.mem_singleton]
        constructor
        · intro hmem
          rcases hmem with hmem | hmem
          · exact (e₃ k₂).mp hmem
          · exact absurd hmem.symm hk₂
        · intro hsome
          exact Or.inl ((e₃ k₂).mpr hsome)
  · intro k₂
    rw [alookup_aset]
    by_cases hk₂ : k = k₂
    · subst hk₂
      intro _
      exact hk
    · rw [if_neg hk₂]
      intro hsome
      exact hcne k₂ (e₄ k₂ hsome)

theorem insertToCache_inv (s : CacheState) (k v : String) (hk : k ≠ "")
    (hq : s.queue.Nodup) (hc : (keys s.cache).Nodup)
    (hqc : ∀ k₂, k₂ ∈ s.queue ↔ (alookup s.cache k₂).isSome)
    (hcne : ∀ k₂, (alookup s.cache k₂).isSome → k₂ ≠ "") :
    (insertToCache s k v).queue.Nodup ∧
      (keys (insertToCache s k v).cache).Nodup ∧
      (∀ k₂, k₂ ∈ (insertToCache s k v).queue ↔
        (alookup (insertToCache s k v).cache k₂).isSome) ∧
      (∀ k₂, (alookup (insertToCache s k v).cache k₂).isSome → k₂ ≠ "") := by
  by_cases hsz : MAX_SIZE < entrySize k v
  · simp only [insertToCache, if_pos hsz]
    exact ⟨hq, hc, hqc, hcne⟩
  · simp only [insertToCache, if_neg hsz]
    cases hcur : alookup s.cache k with
    | none => exact insert_core_inv s k v hk s.current_size hq hc hqc hcne
    | some v₀ =>
      exact insert_core_inv s k v hk (wsub s.current_size (entrySize k v₀))
        hq hc hqc hcne

theorem insertToCache_db (s : CacheState) (k v : String) :
    (insertToCache s k v).db = s.db := by
  simp only [insertToCache]
  split <;> rfl

theorem insertToCache_dbOk (s : CacheState) (k v : String) :
    (insertToCache s k v).dbOk = s.dbOk := by
  simp only [insertToCache]
  split <;> rfl

theorem insertToCache_inv_full (s : CacheState) (k v : String) (hk : k ≠ "")
    (h : Inv s) : Inv (insertToCache s k v) := by
  obtain ⟨hq, hc, hdb, hqc, hcne, hdbne⟩ := h
  obtain ⟨i₁, i₂, i₃, i₄⟩ := insertToCache_inv s k v hk hq hc hqc hcne
  refine ⟨i₁, i₂, ?_, i₃, i₄, ?_⟩
  · rw [insertToCache_db]
    exact hdb
  · intro k₂
    rw [insertToCache_db]
    exact hdbne k₂

theorem put_to_db_dbOk_true (s : CacheState) (k v : String) (h : s.dbOk = true) :
    put_to_db s k v = (true, { s with db := aset s.db k v }) := by
  simp [put_to_db, h]

theorem put_to_db_dbOk_false (s : CacheState) (k v : String) (h : s.dbOk = false) :
    put_to_db s k v = (false, s) := by
  simp [put_to_db, h]

theorem get_from_db_true (s : CacheState) (k v : String)
    (h : get_from_db s k = (true, v)) :
    s.dbOk = true ∧ alookup s.db k = some v := by
  unfold get_from_db at h
  by_cases hok : s.dbOk
  · rw [if_pos hok] at h
    cases halk : alookup s.db k with
    | none =>
      rw [halk] at h
      simp at h
    | some w =>
      rw [halk] at h
      simp at h
      exact ⟨hok, by rw [h]⟩
  · rw [if_neg hok] at h
    simp at h

theorem get_from_db_of_some (s : CacheState) (k v : String) (hok : s.dbOk = true)
    (h : alookup s.db k = some v) : get_from_db s k = (true, v) := by
  simp [get_from_db, hok, h]

theorem get_from_db_of_none (s : CacheState) (k : String) (hok : s.dbOk = true)
    (h : alookup s.db k = none) : get_from_db s k = (false, "") := by
  simp [get_from_db, hok, h]

theorem put_inv (s : CacheState) (k v : String) (h : Inv s) : Inv (put s k v) := by
  obtain ⟨hq, hc, hdb, hqc, hcne, hdbne⟩ := h
  by_cases hk : k = ""
  · simp only [put, if_pos hk]
    exact ⟨hq, hc, hdb, hqc, hcne, hdbne⟩
  · simp only [put, if_neg hk]
    cases hok : s.dbOk with
    | true =>
      rw [put_to_db_dbOk_true s k v hok]
      refine insertToCache_inv_full _ k v hk
        ⟨hq, hc, keys_aset_nodup _ k v hdb, hqc, hcne, ?_⟩
      intro k₂ hsome
      rw [alookup_aset] at hsome
      by_cases hkk : k = k₂
      · exact hkk ▸ hk
      · rw [if_neg hkk] at hsome
        exact hdbne k₂ hsome
    | false =>
      rw [put_to_db_dbOk_false s k v hok]
      exact insertToCache_inv_full s k v hk ⟨hq, hc, hdb, hqc, hcne, hdbne⟩

theorem get_inv (s : CacheState) (k : String) (h : Inv s) : Inv (get s k).2 := by
  obtain ⟨hq, hc, hdb, hqc, hcne, hdbne⟩ := h
  simp only [get]
  cases hlk : alookup s.cache k with
  | some v => exact ⟨hq, hc, hdb, hqc, hcne, hdbne⟩
  | none =>
    rcases hdbg : get_from_db s k with ⟨b, v⟩
    cases b with
    | false => exact ⟨hq, hc, hdb, hqc, hcne, hdbne⟩
    | true =>
      obtain ⟨hok, hsome⟩ := get_from_db_true s k v hdbg
      have hkne : k ≠ "" := hdbne k (by rw [hsome]; rfl)
      exact insertToCache_inv_full s k v hkne ⟨hq, hc, hdb, hqc, hcne, hdbne⟩

theorem remove_from_db_cache (s : CacheState) (k : String) :
    (remove_from_db s k).2.cache = s.cache := by
  simp only [remove_from_db]
  split
  · split <;> rfl
  · rfl

theorem remove_from_db_queue (s : CacheState) (k : String) :
    (remove_from_db s k).2.queue = s.queue := by
  simp only [remove_from_db]
  split
  · split <;> rfl
  · rfl

theorem remove_from_db_size (s : CacheState) (k : String) :
    (remove_from_db s k).2.current_size = s.current_size := by
  simp only [remove_from_db]
  split
  · split <;> rfl
  · rfl

theorem remove_from_db_dbOk (s : CacheState) (k : String) :
    (remove_from_db s k).2.dbOk = s.dbOk := by
  simp only [remove_from_db]
  split
  · split <;> rfl
  · rfl

theorem remove_from_db_db_inv (s : CacheState) (k : String)
    (hdb : (keys s.db).Nodup)
    (hdbne : ∀ k₂, (alookup s.db k₂).isSome → k₂ ≠ "") :
    (keys (remove_from_db s k).2.db).Nodup ∧
      (∀ k₂, (alookup (remove_from_db s k).2.db k₂).isSome → k₂ ≠ "") := by
  simp only [remove_from_db]
  by_cases hok : s.dbOk
  · rw [if_pos hok]
    cases hlk : alookup s.db k with
    | some v =>
      refine ⟨aerase_keys_nodup _ _ hdb, ?_⟩
      intro k₂ hsome
      exact hdbne k₂ (alookup_aerase_isSome _ _ _ hsome)
    | none => exact ⟨hdb, hdbne⟩
  · rw [if_neg hok]
    exact ⟨hdb, hdbne⟩

theorem remove_inv (s : CacheState) (k : String) (h : Inv s) : Inv (remove s k).2 := by
  obtain ⟨hq, hc, hdb, hqc, hcne, hdbne⟩ := h
  obtain ⟨hrdb, hrdbne⟩ := remove_from_db_db_inv s k hdb hdbne
  simp only [remove]
  rw [remove_from_db_cache, remove_from_db_queue]
  cases hlk : alookup s.cache k with
  | some v =>
    refine ⟨hq.filter _, aerase_keys_nodup _ _ hc, hrdb, ?_, ?_, hrdbne⟩
    · intro k₂
      rw [List.mem_filter]
      constructor
      · intro hmem
        have hne : k ≠ k₂ := by
          intro hco
          subst hco
          simp at hmem
        rw [alookup_aerase_ne _ _ _ hne]
        exact (hqc k₂).mp hmem.1
      · intro hsome
        by_cases hek : k = k₂
        · subst hek
          rw [alookup_aerase_self _ _ hc] at hsome
          simp at hsome
        · rw [alookup_aerase_ne _ _ _ hek] at hsome
          refine ⟨(hqc k₂).mpr hsome, ?_⟩
          have hne₂ : ¬k₂ = k := fun hco => hek hco.symm
          simp [hne₂]
    · intro k₂ hsome
      exact hcne k₂ (alookup_aerase_isSome _ _ _ hsome)
  | none =>
    refine ⟨hq.filter _, hc, hrdb, ?_, hcne, hrdbne⟩
    intro k₂
    rw [List.mem_filter]
    constructor
    · intro hmem
      exact (hqc k₂).mp hmem.1
    · intro hsome
      refine ⟨(hqc k₂).mpr hsome, ?_⟩
      have hne : k₂ ≠ k := by
        intro hco
        subst hco
        rw [hlk] at hsome
        simp at hsome
      simp [hne]

theorem step_inv (s : CacheState) (op : Op) (h : Inv s) : Inv (step s op) := by
  cases op with
  | put k v => exact put_inv s k v h
  | get k => exact get_inv s k h
  | remove k => exact remove_inv s k h

theorem init_inv (ok : Bool) : Inv (initState ok) := by
  unfold Inv initState
  simp [keys, alookup]

theorem run_inv (ops : List Op) : Inv (run ops) := by
  suffices h : ∀ s, Inv s → Inv (ops.foldl step s) from h _ (init_inv true)
  induction ops with
  | nil => exact fun s hs => hs
  | cons op rest ih => exact fun s hs => ih _ (step_inv s op hs)

theorem put_dbOk (s : CacheState) (k v : String) : (put s k v).dbOk = s.dbOk := by
  simp only [put]
  split
  · rfl
  · rw [insertToCache_dbOk]
    simp only [put_to_db]
    split <;> rfl

theorem get_dbOk (s : CacheState) (k : String) : (get s k).2.dbOk = s.dbOk := by
  simp only [get]
  cases alookup s.cache k with
  | some v => rfl
  | none =>
    rcases get_from_db s k with ⟨b, v⟩
    cases b with
    | false => rfl
    | true => exact insertToCache_dbOk s k v

theorem remove_dbOk (s : CacheState) (k : String) :
    (remove s k).2.dbOk = s.dbOk := by
  simp only [remove]
  cases alookup (remove_from_db s k).2.cache k with
  | some v => exact remove_from_db_dbOk s k
  | none => exact remove_from_db_dbOk s k

theorem step_dbOk (s : CacheState) (op : Op) : (step s op).dbOk = s.dbOk := by
  cases op with
  | put k v => exact put_dbOk s k v
  | get k => exact get_dbOk s k
  | remove k => exact remove_dbOk s k

theorem run_dbOk (ops : List Op) : (run ops).dbOk = true := by
  suffices h : ∀ s, s.dbOk = true → (ops.foldl step s).dbOk = true from h _ rfl
  induction ops with
  | nil => exact fun s hs => hs
  | cons op rest ih =>
    intro s hs
    exact ih _ ((step_dbOk s op).trans hs)

/-! ### Behavioural lemmas about single operations -/

theorem insertToCache_lookup_self (s : CacheState) (k v : String)
    (hsz : ¬MAX_SIZE < entrySize k v) :
    alookup (insertToCache s k v).cache k = some v := by
  simp only [insertToCache, if_neg hsz]
  cases hcur : alookup s.cache k <;> simp [alookup_aset]

theorem insertToCache_oversized (s : CacheState) (k v : String)
    (hsz : MAX_SIZE < entrySize k v) : insertToCache s k v = s := by
  simp [insertToCache, hsz]

theorem put_cache_lookup (s : CacheState) (k v : String) (hk : ¬k = "")
    (hsz : ¬MAX_SIZE < entrySize k v) :
    alookup (put s k v).cache k = some v := by
  simp only [put, if_neg hk]
  exact insertToCache_lookup_self _ k v hsz

theorem put_oversized_eq (s : CacheState) (k v : String) (hk : ¬k = "")
    (hok : s.dbOk = true) (hbig : MAX_SIZE < entrySize k v) :
    put s k v = { s with db := aset s.db k v } := by
  simp only [put, if_neg hk]
  rw [put_to_db_dbOk_true s k v hok]
  exact insertToCache_oversized _ k v hbig

/-! ### Concrete strings used in the test scenarios -/

def strA10 : String := String.mk (List.replicate 10 'A')

def strB10 : String := String.mk (List.replicate 10 'B')

def strA48 : String := String.mk (List.replicate 48 'A')

def strA20 : String := String.mk (List.replicate 20 'A')

def strB20 : String := String.mk (List.replicate 20 'B')

def strC20 : String := String.mk (List.replicate 20 'C')

def strX20 : String := String.mk (List.replicate 20 'X')

def strV10 : String := String.mk (List.replicate 10 'v')

def strX100 : String := String.mk (List.replicate 100 'X')

/-- The three puts of the spec's FIFO-order scenario: `a`, `b`, `c`, each
entry 21 bytes, on a fresh cache with `MAX_SIZE = 50`. -/
def opsABC : List Op := [Op.put "a" strA20, Op.put "b" strB20, Op.put "c" strC20]

/-- The operation sequence under which the size counter diverges from the
resident byte total: update `"a"` from an 11-byte entry to a 49-byte entry
while `"b"` is also resident. -/
def opsMismatch : List Op := [Op.put "a" strA10, Op.put "b" strB10, Op.put "a" strA48]

/-- `opsMismatch` followed by removing both keys, exposing the `size_t`
underflow of the counter. -/
def opsUnderflow : List Op :=
  [Op.put "a" strA10, Op.put "b" strB10, Op.put "a" strA48,
   Op.remove "a", Op.remove "b"]

/-! ### Claim theorems -/

/-- C1: the claimed invariant `current_size = Σ size(e) over the cache index
≤ MAX_SIZE` is violated by a reachable state.  After `put("a", 10×A)`,
`put("b", 10×B)`, `put("a", 48×A)` the counter holds 49 while the resident
entries occupy 60 bytes (exceeding `MAX_SIZE = 50`): re-putting `"a"` with a
larger fitting value subtracts its old size once up front and once more when
the eviction loop evicts `"a"` itself.  Removing both keys afterwards wraps
the counter to `2^64 - 11` on an empty cache. -/
theorem current_size_invariant_violated :
    (run opsMismatch).current_size = 49 ∧
      cacheByteSum (run opsMismatch).cache = 60 ∧
      (run opsMismatch).current_size ≠ cacheByteSum (run opsMismatch).cache ∧
      MAX_SIZE < cacheByteSum (run opsMismatch).cache ∧
      (run opsUnderflow).cache = [] ∧
      (run opsUnderflow).current_size = W - 11 ∧
      MAX_SIZE < (run opsUnderflow).current_size := by
  decide

/-- C2: in every reachable state the FIFO queue has no duplicate keys and
its members are exactly the keys resident in the cache index. -/
theorem fifo_queue_matches_index (ops : List Op) :
    (run ops).queue.Nodup ∧
      ∀ k, k ∈ (run ops).queue ↔ k ∈ keys (run ops).cache := by
  obtain ⟨h₁, _, _, h₄, _, _⟩ := run_inv ops
  refine ⟨h₁, fun k => ?_⟩
  rw [mem_keys_iff]
  exact h₄ k

/-- C3 counterexample: in the sequential run of the spec's scenario, the
`get("a")` that follows the three puts promotes `"a"` back into the cache
and thereby evicts `"b"`, so the subsequent `get("b")` is a cache miss
(though it still returns `20×B` via the store), refuting "`get("b")` and
`get("c")` are cache hits". -/
theorem fifo_scenario_get_b_misses_cache :
    alookup ((KVStore.get (run opsABC) "a").2).cache "b" = none ∧
      (KVStore.get ((KVStore.get (run opsABC) "a").2) "b").1 = ("b", strB20) := by
  decide

/-- C3 amended: after the three puts, `"a"` (the oldest key) and only `"a"`
has been evicted; probed at that state, `get("a")` misses the cache but
returns `20×A` from the store, and `get("b")` and `get("c")` are cache hits.
In the sequential run, however, `get("a")`'s promotion evicts `"b"`, so the
following `get("b")` misses the cache and is served from the store. -/
theorem fifo_scenario_amended :
    alookup (run opsABC).cache "a" = none ∧
      alookup (run opsABC).cache "b" = some strB20 ∧
      alookup (run opsABC).cache "c" = some strC20 ∧
      (run opsABC).queue = ["b", "c"] ∧
      (KVStore.get (run opsABC) "a").1 = ("a", strA20) ∧
      alookup ((KVStore.get (run opsABC) "a").2).cache "b" = none ∧
      (KVStore.get ((KVStore.get (run opsABC) "a").2) "b").1 = ("b", strB20) := by
  decide

/-- C4: for any starting state, putting a non-empty key with a fitting value
and immediately getting it back returns a found pair carrying exactly that
value (the promoted key is unconditionally written to the index, so this
holds even though the put itself may evict other keys). -/
theorem put_then_get_roundtrip (s : CacheState) (k v : String) (hk : k ≠ "")
    (hsz : entrySize k v ≤ MAX_SIZE) :
    (KVStore.get (put s k v) k).1 = (k, v) := by
  have h := put_cache_lookup s k v hk (not_lt.mpr hsz)
  simp [get, h]

/-- Witness for C4 at a concrete input. -/
theorem put_then_get_roundtrip_witness :
    ("k" ≠ "" ∧ entrySize "k" "hello" ≤ MAX_SIZE) ∧
      (KVStore.get (put (initState true) "k" "hello") "k").1 = ("k", "hello") :=
  ⟨⟨by decide, by decide⟩,
   put_then_get_roundtrip (initState true) "k" "hello" (by decide) (by decide)⟩

/-- C5 counterexample: re-putting a resident key with a new value that still
fits *can* move its FIFO position.  With `a` (11 bytes) and `b` (11 bytes)
resident, re-putting `a` with a 49-byte entry (fits: 49 ≤ 50) makes the
eviction loop evict `a` itself, after which `a` is re-appended at the tail:
the queue goes from `[a, b]` to `[b, a]`. -/
theorem update_can_move_fifo_position :
    (run [Op.put "a" strA10, Op.put "b" strB10]).queue = ["a", "b"] ∧
      entrySize "a" strA48 ≤ MAX_SIZE ∧
      (run opsMismatch).queue = ["b", "a"] := by
  decide

/-- C5 amended: a re-put that triggers no eviction (in particular the spec's
same-size update scenario) leaves the key's FIFO position unchanged: after
`put a`, `put b`, re-`put a` with a same-size value the queue is still
`[a, b]`, and the forced eviction caused by `put c` evicts `"a"` first,
leaving `"b"` and `"c"` resident.  (If the re-put's eviction loop reaches the
key itself, the key is re-appended at the tail, as the counterexample shows.) -/
theorem update_same_size_keeps_position :
    (run [Op.put "a" strA20, Op.put "b" strB20, Op.put "a" strX20]).queue =
        ["a", "b"] ∧
      alookup (run [Op.put "a" strA20, Op.put "b" strB20,
        Op.put "a" strX20]).cache "a" = some strX20 ∧
      alookup (run [Op.put "a" strA20, Op.put "b" strB20, Op.put "a" strX20,
        Op.put "c" strC20]).cache "a" = none ∧
      alookup (run [Op.put "a" strA20, Op.put "b" strB20, Op.put "a" strX20,
        Op.put "c" strC20]).cache "b" = some strB20 ∧
      (run [Op.put "a" strA20, Op.put "b" strB20, Op.put "a" strX20,
        Op.put "c" strC20]).queue = ["b", "c"] := by
  decide

/-- C6 counterexample: when the key is already resident, an oversized put
does *not* make a later `get` return the new value from the store — the
stale cached value shadows it.  After `put("k", 10×v)` then `put("k", 100×X)`
the store holds `100×X` but `get("k")` returns `10×v`. -/
theorem oversized_put_stale_get :
    alookup (run [Op.put "k" strV10, Op.put "k" strX100]).db "k" = some strX100 ∧
      (KVStore.get (run [Op.put "k" strV10, Op.put "k" strX100]) "k").1 =
        ("k", strV10) ∧
      strV10 ≠ strX100 := by
  decide

/-- C6 amended: an oversized put (non-empty key, `len(k)+len(v) > MAX_SIZE`)
leaves the cache index, FIFO order and `current_size` unchanged and (when the
store is working) writes the entry to the store; provided `k` is not already
resident in the cache index, a subsequent `get(k)` returns `v` from the
store.  (If `k` is resident, `get(k)` returns the stale cached value
instead.) -/
theorem oversized_put_behavior (s : CacheState) (k v : String) (hk : k ≠ "")
    (hbig : MAX_SIZE < entrySize k v) :
    (put s k v).cache = s.cache ∧ (put s k v).queue = s.queue ∧
      (put s k v).current_size = s.current_size ∧
      (s.dbOk = true → (put s k v).db = aset s.db k v) ∧
      (s.dbOk = true → alookup s.cache k = none →
        (KVStore.get (put s k v) k).1 = (k, v)) := by
  cases hok : s.dbOk with
  | true =>
    rw [put_oversized_eq s k v hk hok hbig]
    refine ⟨rfl, rfl, rfl, fun _ => rfl, ?_⟩
    intro _ hnone
    have hc : alookup ({ s with db := aset s.db k v } : CacheState).cache k =
        none := hnone
    have hg : get_from_db ({ s with db := aset s.db k v } : CacheState) k =
        (true, v) := by
      apply get_from_db_of_some
      · exact hok
      · show alookup (aset s.db k v) k = some v
        rw [alookup_aset, if_pos rfl]
    simp [get, hc, hg]
  | false =>
    have hput : put s k v = s := by
      simp only [put, if_neg hk]
      rw [put_to_db_dbOk_false s k v hok]
      exact insertToCache_oversized _ k v hbig
    rw [hput]
    refine ⟨rfl, rfl, rfl, fun hco => ?_, fun hco => ?_⟩
    · exact (Bool.false_ne_true hco).elim
    · exact (Bool.false_ne_true hco).elim

/-- Witness for the C6 amended theorem at the spec's own scenario:
`put("huge", 100×X)` on a fresh cache. -/
theorem oversized_put_behavior_witness :
    ("huge" ≠ "" ∧ MAX_SIZE < entrySize "huge" strX100) ∧
      ((put (initState true) "huge" strX100).cache = (initState true).cache ∧
       (put (initState true) "huge" strX100).queue = (initState true).queue ∧
       (put (initState true) "huge" strX100).current_size =
         (initState true).current_size ∧
       ((initState true).dbOk = true →
         (put (initState true) "huge" strX100).db =
           aset (initState true).db "huge" strX100) ∧
       ((initState true).dbOk = true →
         alookup (initState true).cache "huge" = none →
         (KVStore.get (put (initState true) "huge" strX100) "huge").1 =
           ("huge", strX100))) :=
  ⟨⟨by decide, by decide⟩,
   oversized_put_behavior (initState true) "huge" strX100 (by decide) (by decide)⟩

/-- C7: a put with the empty key is a complete no-op — the resulting state
(store and cache alike) is exactly the argument state. -/
theorem put_empty_key_noop (s : CacheState) (v : String) : put s "" v = s := by
  simp [put]

/-- C8: in every reachable state, a `get` of a resident key whose value is
the empty string yields `(k, "")`, a `get` of a key absent from both cache
and store yields the sentinel `("", "")`, and the two results differ
(resident keys are never empty, so the first component tags found-ness). -/
theorem empty_value_distinguishable (ops : List Op) (k k₂ : String)
    (hres : alookup (run ops).cache k = some "")
    (habs : alookup (run ops).cache k₂ = none)
    (habsdb : alookup (run ops).db k₂ = none) :
    (KVStore.get (run ops) k).1 = (k, "") ∧
      (KVStore.get (run ops) k₂).1 = ("", "") ∧
      (KVStore.get (run ops) k).1 ≠ (KVStore.get (run ops) k₂).1 := by
  obtain ⟨_, _, _, _, hcne, _⟩ := run_inv ops
  have hk : k ≠ "" := hcne k (by rw [hres]; rfl)
  have h₁ : (KVStore.get (run ops) k).1 = (k, "") := by simp [get, hres]
  have h₂ : (KVStore.get (run ops) k₂).1 = ("", "") := by
    have hng := get_from_db_of_none (run ops) k₂ (run_dbOk ops) habsdb
    simp [get, habs, hng]
  refine ⟨h₁, h₂, ?_⟩
  rw [h₁, h₂]
  intro hco
  exact hk (congrArg Prod.fst hco)

/-- Witness for C8: cache `"e" ↦ ""` (an 1-byte entry), probe the absent
key `"x"`. -/
theorem empty_value_distinguishable_witness :
    (alookup (run [Op.put "e" ""]).cache "e" = some "" ∧
     alookup (run [Op.put "e" ""]).cache "x" = none ∧
     alookup (run [Op.put "e" ""]).db "x" = none) ∧
      ((KVStore.get (run [Op.put "e" ""]) "e").1 = ("e", "") ∧
       (KVStore.get (run [Op.put "e" ""]) "x").1 = ("", "") ∧
       (KVStore.get (run [Op.put "e" ""]) "e").1 ≠
         (KVStore.get (run [Op.put "e" ""]) "x").1) :=
  ⟨⟨by decide, by decide, by decide⟩,
   empty_value_distinguishable [Op.put "e" ""] "e" "x"
     (by decide) (by decide) (by decide)⟩

/-- C9 counterexample: with a failed store (`dbOk = false`, the null-handle
path of `SQLiteDB`), `put("k", "v")` leaves the store without the entry yet
still populates the cache with it, and the caller receives no failure signal
(`FIFOCache::put` returns `void` and discards `put_to_db`'s result). -/
theorem put_swallows_store_failure :
    alookup (put (initState false) "k" "v").db "k" = none ∧
      alookup (put (initState false) "k" "v").cache "k" = some "v" := by
  decide

/-- C9 amended: a failed store write during `put` is reported by
`put_to_db` as `false` and writes nothing, but `FIFOCache::put` discards
that result: it has no failure result of its own, and it still populates the
cache with the entry whenever the entry fits. -/
theorem put_ignores_store_failure (s : CacheState) (k v : String) (hk : k ≠ "")
    (hfail : s.dbOk = false) :
    (put_to_db s k v).1 = false ∧ (put s k v).db = s.db ∧
      (entrySize k v ≤ MAX_SIZE → alookup (put s k v).cache k = some v) := by
  have hpdb : put_to_db s k v = (false, s) := put_to_db_dbOk_false s k v hfail
  refine ⟨by rw [hpdb], ?_, ?_⟩
  · simp only [put, if_neg hk]
    rw [hpdb]
    exact insertToCache_db s k v
  · intro hsz
    simp only [put, if_neg hk]
    rw [hpdb]
    exact insertToCache_lookup_self s k v (not_lt.mpr hsz)

/-- Witness for the C9 amended theorem. -/
theorem put_ignores_store_failure_witness :
    ("k" ≠ "" ∧ (initState false).dbOk = false) ∧
      ((put_to_db (initState false) "k" "v").1 = false ∧
       (put (initState false) "k" "v").db = (initState false).db ∧
       (entrySize "k" "v" ≤ MAX_SIZE →
         alookup (put (initState false) "k" "v").cache "k" = some "v")) :=
  ⟨⟨by decide, by decide⟩,
   put_ignores_store_failure (initState false) "k" "v" (by decide) (by decide)⟩

/-- C10: an oversized update of a resident key leaves the stale pair in the
cache while the store holds the new value, and a subsequent `get` returns
the stale cached value. -/
theorem stale_entry_after_oversized_update (s : CacheState) (k v₁ v₂ : String)
    (hk : k ≠ "") (hres : alookup s.cache k = some v₁)
    (_hfit : entrySize k v₁ ≤ MAX_SIZE)
    (hbig : MAX_SIZE < entrySize k v₂) (hok : s.dbOk = true) :
    alookup (put s k v₂).cache k = some v₁ ∧
      alookup (put s k v₂).db k = some v₂ ∧
      (KVStore.get (put s k v₂) k).1 = (k, v₁) := by
  rw [put_oversized_eq s k v₂ hk hok hbig]
  have hc : alookup ({ s with db := aset s.db k v₂ } : CacheState).cache k =
      some v₁ := hres
  refine ⟨hc, ?_, ?_⟩
  · show alookup (aset s.db k v₂) k = some v₂
    rw [alookup_aset, if_pos rfl]
  · simp [get, hc]

/-- Witness for C10: `"k" ↦ 10×v` resident, then an oversized update to
`100×X`. -/
theorem stale_entry_after_oversized_update_witness :
    ("k" ≠ "" ∧ alookup (run [Op.put "k" strV10]).cache "k" = some strV10 ∧
     entrySize "k" strV10 ≤ MAX_SIZE ∧ MAX_SIZE < entrySize "k" strX100 ∧
     (run [Op.put "k" strV10]).dbOk = true) ∧
      (alookup (put (run [Op.put "k" strV10]) "k" strX100).cache "k" =
        some strV10 ∧
       alookup (put (run [Op.put "k" strV10]) "k" strX100).db "k" =
        some strX100 ∧
       (KVStore.get (put (run [Op.put "k" strV10]) "k" strX100) "k").1 =
        ("k", strV10)) :=
  ⟨⟨by decide, by decide, by decide, by decide, by decide⟩,
   stale_entry_after_oversized_update (run [Op.put "k" strV10]) "k" strV10
     strX100 (by decide) (by decide) (by decide) (by decide) (by decide)⟩

end KVStore
